import Mathlib

/-!
Shallow embedding of `segnmt/train/train.py` (data pipeline of a
translation-memory-augmented seq2seq trainer), together with theorems
checking the natural-language specification against the code.

Token id sequences are modelled as `List Int`; a minibatch example is a
pair of such sequences; an augmented example additionally carries the
retrieved similar examples.  File contents are modelled as the list of
their lines; a Python process abort (failed assertion, raised exception)
is modelled as `Option.none`.
-/

set_option autoImplicit false
set_option synthInstance.maxSize 1024

namespace Segnmt

/-- Modelled from the spec: `segnmt.misc.constants` is not under `src/`;
the spec fixes the reserved id of the unknown token to 0. -/
def UNK : Int := 0

/-- Modelled from the spec: `segnmt.misc.constants` is not under `src/`;
the spec fixes the reserved id of the end-of-sequence token to 1. -/
def EOS : Int := 1

/-- Modelled from the spec: `segnmt.misc.constants` is not under `src/`;
the spec only requires the padding sentinel to be distinct from `UNK`
and `EOS`, so it is modelled as a negative id outside every vocabulary. -/
def PAD : Int := -1

/-- The reserved unknown-word token. -/
def unkWord : String := "<UNK>"

/-- The reserved end-of-sequence token. -/
def eosWord : String := "<EOS>"

/-- Accumulator pass of `pySplit`: `acc` holds the reversed characters
of the word being read. -/
def splitWsAux : List Char → List Char → List String
  | [], [] => []
  | [], acc => [String.mk acc.reverse]
  | c :: cs, acc =>
    if c.isWhitespace then
      match acc with
      | [] => splitWsAux cs []
      | _ => String.mk acc.reverse :: splitWsAux cs []
    else splitWsAux cs (c :: acc)

/-- Python `str.split()` with no separator: split on whitespace runs,
discarding empty fragments (this also subsumes the preceding `strip()`). -/
def pySplit (s : String) : List String :=
  splitWsAux s.data []

/-- Python list indexing `l[j]`: negative indices count from the end;
anything else out of `[-len, len)` raises `IndexError` (modelled `none`). -/
def pyGet {α : Type} (l : List α) (j : Int) : Option α :=
  if j < 0 then
    if 0 ≤ (l.length : Int) + j then l[((l.length : Int) + j).toNat]? else none
  else l[j.toNat]?

/-- Map a fallible function over a list, failing if any element fails
(the behaviour of a Python loop or comprehension raising an exception). -/
def mapOption {α β : Type} (f : α → Option β) : List α → Option (List β)
  | [] => some []
  | a :: t =>
    match f a, mapOption f t with
    | some b, some bs => some (b :: bs)
    | _, _ => none

/-- The value of the last binding of key `w` in an association list. -/
def lookupLast : List (String × Int) → String → Option Int
  | [], _ => none
  | p :: t, w =>
    match lookupLast t w with
    | some v => some v
    | none => if p.1 == w then some p.2 else none

/-- Accumulator pass of `pyDict`: `seen` holds the keys already emitted. -/
def pyDictAux (seen : List String) : List (String × Int) → List (String × Int)
  | [] => []
  | p :: t =>
    if seen.contains p.1 then pyDictAux seen t
    else (p.1, (lookupLast t p.1).getD p.2) :: pyDictAux (p.1 :: seen) t

/-- A Python `dict` built from a list of key/value bindings: each key
keeps the position of its first binding and the value of its last one. -/
def pyDict (l : List (String × Int)) : List (String × Int) :=
  pyDictAux [] l

/-- Python `d[w]` on a dict: the value stored at key `w`, if any. -/
def vlookup (d : List (String × Int)) (w : String) : Option Int :=
  (d.find? (fun p => p.1 == w)).map (fun p => p.2)

/-- Python `d.get(w, UNK)`: lookup with the unknown id as default. -/
def vocabGet (d : List (String × Int)) (w : String) : Int :=
  (vlookup d w).getD UNK

/-- `enumerate(words)` starting at index `i`, with indices as ids. -/
def enumFrom (i : Nat) : List String → List (String × Int)
  | [] => []
  | w :: t => (w, (i : Int)) :: enumFrom (i + 1) t

/-- Append the end-of-sequence id (`np.hstack((sentence, eos))`). -/
def appendEos (s : List Int) : List Int := s ++ [EOS]

/-- The width `F.pad_sequence` pads to: the maximum sequence length. -/
def blockWidth (ss : List (List Int)) : Nat :=
  (ss.map List.length).foldr max 0

/-- Right-pad one sequence to width `w` with the padding sentinel. -/
def padRow (w : Nat) (s : List Int) : List Int :=
  s ++ List.replicate (w - s.length) PAD

/-- `chainer.functions.pad_sequence(ss, padding=PAD)`. -/
def pad_sequence (ss : List (List Int)) : List (List Int) :=
  ss.map (padRow (blockWidth ss))

/-- `convert` (train.py lines 109-128): append EOS to every source and
target sequence and pad each group to its own maximum length.  Moving
the blocks to the device is the identity in this model. -/
def convert (minibatch : List (List Int × List Int)) :
    List (List Int) × List (List Int) :=
  (pad_sequence (minibatch.map (fun p => appendEos p.1)),
   pad_sequence (minibatch.map (fun p => appendEos p.2)))

/-- The batch maximum of the source-side lengths before EOS. -/
def srcMaxLen (minibatch : List (List Int × List Int)) : Nat :=
  blockWidth (minibatch.map (fun p => p.1))

/-- The batch maximum of the target-side lengths before EOS. -/
def tgtMaxLen (minibatch : List (List Int × List Int)) : Nat :=
  blockWidth (minibatch.map (fun p => p.2))

/-- The maximum retrieved-set size in an augmented minibatch
(`max(len(x) for x in sim_batches)`). -/
def maxRetrieved
    (minibatch : List (List Int × List Int × List (List Int × List Int))) : Nat :=
  (minibatch.map (fun e => e.2.2.length)).foldr max 0

/-- The rank-`r` column of an augmented minibatch: each member's `r`-th
retrieved example, or the empty-sequence placeholder when it has fewer
(`sim_batch[i] if i < len(sim_batch) else (np.array([]), np.array([]))`). -/
def rankColumn
    (minibatch : List (List Int × List Int × List (List Int × List Int)))
    (r : Nat) : List (List Int × List Int) :=
  minibatch.map (fun e => e.2.2.getD r ([], []))

/-- `convert_with_similar_sentences` (train.py lines 131-156): convert
the base pairs, then one converted block pair per retrieval rank. -/
def convert_with_similar_sentences
    (minibatch : List (List Int × List Int × List (List Int × List Int))) :
    List (List Int) × List (List Int) ×
      List (List (List Int) × List (List Int)) :=
  let base := convert (minibatch.map (fun e => (e.1, e.2.1)))
  let m := maxRetrieved minibatch
  (base.1, base.2, (List.range m).map (fun i => convert (rankColumn minibatch i)))

/-- The dict comprehension of `load_vocab` (train.py line 174): the
word-to-index dict over the reserved-plus-file word list, restricted to
indices below `size`. -/
def vocabOf (fileLines : List String) (size : Nat) : List (String × Int) :=
  pyDict ((enumFrom 0 (unkWord :: eosWord :: fileLines)).filter
    (fun p => decide (p.2 < (size : Int))))

/-- `load_vocab` (train.py lines 159-178): prepend the reserved tokens
to the file's word list, check the requested size fits, build the
word-to-index dict restricted to indices below `size`, and check the
reserved tokens got their reserved ids.  A failed assertion or a
`KeyError` on a reserved token aborts the process (`none`). -/
def load_vocab (fileLines : List String) (size : Nat) :
    Option (List (String × Int)) :=
  if size ≤ (unkWord :: eosWord :: fileLines).length then
    match vlookup (vocabOf fileLines size) unkWord,
        vlookup (vocabOf fileLines size) eosWord with
    | some u, some e => if u = UNK ∧ e = EOS then some (vocabOf fileLines size) else none
    | _, _ => none
  else none

/-- `load_data` (train.py lines 181-219): check the two corpora are
line-aligned, then tokenize each line pair, mapping out-of-vocabulary
words to the unknown id. -/
def load_data (srcLines tgtLines : List String)
    (source_vocab target_vocab : List (String × Int)) :
    Option (List (List Int × List Int)) :=
  if srcLines.length = tgtLines.length then
    some ((srcLines.zip tgtLines).map (fun p =>
      ((pySplit p.1).map (vocabGet source_vocab),
       (pySplit p.2).map (vocabGet target_vocab))))
  else none

/-- The decimal value of a digit character, if it is one. -/
def digitVal? (c : Char) : Option Nat :=
  if '0' ≤ c ∧ c ≤ '9' then some (c.toNat - '0'.toNat) else none

/-- Read a nonempty run of decimal digits into a number. -/
def decDigits? : Nat → List Char → Option Nat
  | acc, [] => some acc
  | acc, c :: cs =>
    match digitVal? c with
    | some d => decDigits? (10 * acc + d) cs
    | none => none

/-- Python `int(token)` on an optionally-negated decimal token; any
other token raises `ValueError` (`none`). -/
def pyInt? (s : String) : Option Int :=
  match s.data with
  | [] => none
  | ['-'] => none
  | '-' :: cs => (decDigits? 0 cs).map (fun n => -(n : Int))
  | cs => (decDigits? 0 cs).map (fun n => (n : Int))

/-- `[int(i) for i in line.strip().split()]`: parse one index-file line;
a non-integer token raises `ValueError` (`none`). -/
def parseInts (line : String) : Option (List Int) :=
  mapOption pyInt? (pySplit line)

/-- One iteration of the attachment loop of `load_train_data` (train.py
lines 250-251): parse the line's integers, drop the first
(self-reference), and resolve the rest in the reference pool with
Python list indexing. -/
def attachLine (data : List (List Int × List Int)) (line : String) :
    Option (List (List Int × List Int)) :=
  (parseInts line).bind (fun ints => mapOption (pyGet data) (ints.drop 1))

/-- `load_train_data` (train.py lines 222-254): load the corpus, check
the index file is line-aligned with it, and attach each line's
retrieved set to its example. -/
def load_train_data (srcLines tgtLines : List String)
    (source_vocab target_vocab : List (String × Int))
    (simLines : List String) :
    Option (List (List Int × List Int × List (List Int × List Int))) :=
  (load_data srcLines tgtLines source_vocab target_vocab).bind (fun data =>
    if data.length = simLines.length then
      (mapOption (attachLine data) simLines).map (fun sims =>
        (data.zip sims).map (fun p => (p.1.1, p.1.2, p.2)))
    else none)

/-- The two converter functions `train` can select between. -/
inductive ConverterKind : Type
  | plain : ConverterKind
  | withSimilar : ConverterKind
deriving DecidableEq

/-- `train` (train.py lines 328-334) always passes
`cargs.similar_sentence_indices` to `load_train_data`; when it is
`None`, `similar_indices.exists()` raises `AttributeError` before any
data is loaded (`none`). -/
def load_train_data_opt (srcLines tgtLines : List String)
    (source_vocab target_vocab : List (String × Int))
    (simLines : Option (List String)) :
    Option (List (List Int × List Int × List (List Int × List Int))) :=
  match simLines with
  | none => none
  | some ls => load_train_data srcLines tgtLines source_vocab target_vocab ls

/-- `train` (train.py lines 338-340): `converter = convert`, replaced by
`convert_with_similar_sentences` when similar-sentence indices exist. -/
def selectConverter (simLines : Option (List String)) : ConverterKind :=
  match simLines with
  | none => ConverterKind.plain
  | some _ => ConverterKind.withSimilar

/-- The data-loading and converter-selection part of `train` (train.py
lines 328-342): the updater's converter is chosen only if loading the
training data succeeded. -/
def trainSetup (srcLines tgtLines : List String)
    (source_vocab target_vocab : List (String × Int))
    (simLines : Option (List String)) : Option ConverterKind :=
  (load_train_data_opt srcLines tgtLines source_vocab target_vocab simLines).map
    (fun _ => selectConverter simLines)

/-- The hypothesis post-processing of `CalculateBleu.__call__` (train.py
lines 97-100): `[sentence.tolist()[:-1] for sentence in results]`, i.e.
every decoded sequence loses its final token. -/
def calculateBleuHypotheses (results : List (List Int)) : List (List Int) :=
  results.map (fun s => s.dropLast)

/-! ### Helper lemmas about the batch converter -/

theorem length_le_blockWidth {s : List Int} {ss : List (List Int)} (h : s ∈ ss) :
    s.length ≤ blockWidth ss := by
  induction ss with
  | nil => cases h
  | cons a t ih =>
    rcases List.mem_cons.mp h with rfl | hm
    · exact Nat.le_max_left _ _
    · exact le_trans (ih hm) (Nat.le_max_right _ _)

theorem foldr_max_map_add_one (l : List Nat) (h : l ≠ []) :
    (l.map (fun n => n + 1)).foldr max 0 = l.foldr max 0 + 1 := by
  induction l with
  | nil => exact absurd rfl h
  | cons a t ih =>
    cases t with
    | nil => simp
    | cons b u =>
      have ht := ih (by simp)
      simp only [List.map_cons, List.foldr_cons] at ht ⊢
      rw [ht]
      omega

theorem blockWidth_map_appendEos (ss : List (List Int)) (h : ss ≠ []) :
    blockWidth (ss.map appendEos) = blockWidth ss + 1 := by
  have h1 : (ss.map appendEos).map List.length = (ss.map List.length).map (fun n => n + 1) := by
    simp [List.map_map, appendEos, Function.comp]
  have h2 : ss.map List.length ≠ [] := by simpa using h
  simp only [blockWidth, h1]
  exact foldr_max_map_add_one _ h2

theorem pad_sequence_length (ss : List (List Int)) :
    (pad_sequence ss).length = ss.length := by
  simp [pad_sequence]

theorem pad_sequence_getElem? (ss : List (List Int)) (i : Nat) (s : List Int)
    (hs : ss[i]? = some s) :
    (pad_sequence ss)[i]? =
      some (s ++ List.replicate (blockWidth ss - s.length) PAD) := by
  simp [pad_sequence, List.getElem?_map, hs, padRow]

theorem pad_sequence_row_length (ss : List (List Int)) (row : List Int)
    (hrow : row ∈ pad_sequence ss) : row.length = blockWidth ss := by
  rcases List.mem_map.mp hrow with ⟨s, hs, rfl⟩
  have := length_le_blockWidth hs
  simp only [padRow, List.length_append, List.length_replicate]
  omega

theorem convert_length (mb : List (List Int × List Int)) :
    (convert mb).1.length = mb.length ∧ (convert mb).2.length = mb.length := by
  constructor <;> simp [convert, pad_sequence_length]

theorem srcBlockWidth_eq (mb : List (List Int × List Int)) (h : mb ≠ []) :
    blockWidth (mb.map (fun p => appendEos p.1)) = srcMaxLen mb + 1 := by
  have hmm : mb.map (fun p => appendEos p.1) = (mb.map (fun p => p.1)).map appendEos := by
    simp [List.map_map]
  rw [hmm, blockWidth_map_appendEos _ (by simpa using h)]
  rfl

theorem tgtBlockWidth_eq (mb : List (List Int × List Int)) (h : mb ≠ []) :
    blockWidth (mb.map (fun p => appendEos p.2)) = tgtMaxLen mb + 1 := by
  have hmm : mb.map (fun p => appendEos p.2) = (mb.map (fun p => p.2)).map appendEos := by
    simp [List.map_map]
  rw [hmm, blockWidth_map_appendEos _ (by simpa using h)]
  rfl

theorem convert_fst_getElem? (mb : List (List Int × List Int)) (h : mb ≠ [])
    (i : Nat) (s t : List Int) (hm : mb[i]? = some (s, t)) :
    (convert mb).1[i]? =
      some (s ++ [EOS] ++ List.replicate (srcMaxLen mb + 1 - (s.length + 1)) PAD) := by
  have hs : (mb.map (fun p => appendEos p.1))[i]? = some (appendEos s) := by
    simp [List.getElem?_map, hm]
  have hrow := pad_sequence_getElem? _ i (appendEos s) hs
  rw [srcBlockWidth_eq mb h] at hrow
  simpa [appendEos, List.append_assoc] using hrow

theorem convert_snd_getElem? (mb : List (List Int × List Int)) (h : mb ≠ [])
    (i : Nat) (s t : List Int) (hm : mb[i]? = some (s, t)) :
    (convert mb).2[i]? =
      some (t ++ [EOS] ++ List.replicate (tgtMaxLen mb + 1 - (t.length + 1)) PAD) := by
  have hs : (mb.map (fun p => appendEos p.2))[i]? = some (appendEos t) := by
    simp [List.getElem?_map, hm]
  have hrow := pad_sequence_getElem? _ i (appendEos t) hs
  rw [tgtBlockWidth_eq mb h] at hrow
  simpa [appendEos, List.append_assoc] using hrow

theorem cwss_sims_getElem? (mb : List (List Int × List Int × List (List Int × List Int)))
    (r : Nat) (hr : r < maxRetrieved mb) :
    (convert_with_similar_sentences mb).2.2[r]? = some (convert (rankColumn mb r)) := by
  simp [convert_with_similar_sentences, List.getElem?_map, List.getElem?_range hr]

/-! ### C1 -/

/-- C1: `convert` appends EOS to every source and target sequence and
right-pads each group to the batch maximum plus one with PAD: row `i` of
the source block is the original ids, then EOS, then PAD up to width
`max L + 1`; symmetrically for the target block. -/
theorem convert_pads_with_eos (mb : List (List Int × List Int)) (h : mb ≠ []) :
    ((convert mb).1.length = mb.length ∧ (convert mb).2.length = mb.length) ∧
    (∀ row ∈ (convert mb).1, row.length = srcMaxLen mb + 1) ∧
    (∀ row ∈ (convert mb).2, row.length = tgtMaxLen mb + 1) ∧
    (∀ (i : Nat) (s t : List Int), mb[i]? = some (s, t) →
      (convert mb).1[i]? =
        some (s ++ [EOS] ++ List.replicate (srcMaxLen mb + 1 - (s.length + 1)) PAD) ∧
      (convert mb).2[i]? =
        some (t ++ [EOS] ++ List.replicate (tgtMaxLen mb + 1 - (t.length + 1)) PAD)) := by
  refine ⟨convert_length mb, ?_, ?_, ?_⟩
  · intro row hrow
    have := pad_sequence_row_length _ row hrow
    rwa [srcBlockWidth_eq mb h] at this
  · intro row hrow
    have := pad_sequence_row_length _ row hrow
    rwa [tgtBlockWidth_eq mb h] at this
  · intro i s t hm
    exact ⟨convert_fst_getElem? mb h i s t hm, convert_snd_getElem? mb h i s t hm⟩

/-- Witness for C1 at the minibatch `[([5], [6, 7]), ([], [8])]`. -/
theorem convert_pads_with_eos_w :
    (convert [([5], [6, 7]), ([], [8])]).1[1]? = some [EOS, PAD] ∧
    (convert [([5], [6, 7]), ([], [8])]).2[0]? = some [6, 7, EOS] := by
  have h := (convert_pads_with_eos [([5], [6, 7]), ([], [8])] (by decide)).2.2.2
  have h1 := (h 1 [] [8] (by decide)).1
  have h0 := (h 0 [5] [6, 7] (by decide)).2
  exact ⟨h1.trans (by decide), h0.trans (by decide)⟩

/-! ### C2 -/

/-- C2: `convert_with_similar_sentences` returns the base blocks plus
exactly `M = max` retrieved-set size converted block pairs, one per
retrieval rank; `M = 0` yields the empty list; rank `r` converts the
column of every member's `r`-th retrieved example, a member with fewer
than `r + 1` retrievals contributing the empty-sequence placeholder. -/
theorem cwss_rank_structure
    (mb : List (List Int × List Int × List (List Int × List Int))) (h : mb ≠ []) :
    (convert_with_similar_sentences mb).1 = (convert (mb.map (fun e => (e.1, e.2.1)))).1 ∧
    (convert_with_similar_sentences mb).2.1 = (convert (mb.map (fun e => (e.1, e.2.1)))).2 ∧
    (convert_with_similar_sentences mb).2.2.length = maxRetrieved mb ∧
    (maxRetrieved mb = 0 → (convert_with_similar_sentences mb).2.2 = []) ∧
    (∀ r : Nat, r < maxRetrieved mb →
      (convert_with_similar_sentences mb).2.2[r]? = some (convert (rankColumn mb r))) ∧
    (∀ (r i : Nat) (e : List Int × List Int × List (List Int × List Int)),
      mb[i]? = some e → e.2.2.length ≤ r →
      (rankColumn mb r)[i]? = some ([], [])) := by
  refine ⟨rfl, rfl, ?_, ?_, fun r hr => cwss_sims_getElem? mb r hr, ?_⟩
  · simp [convert_with_similar_sentences]
  · intro h0
    simp [convert_with_similar_sentences, h0]
  · intro r i e hm hlen
    simp [rankColumn, List.getElem?_map, hm, List.getElem?_eq_none hlen]

/-- Witness for C2 at a batch with retrieved-set sizes 2 and 0. -/
theorem cwss_rank_structure_w :
    (convert_with_similar_sentences
      [([2], [3], [([4], [5]), ([6], [7])]), ([8], [9], [])]).2.2.length = 2 ∧
    (convert_with_similar_sentences
      [([2], [3], [([4], [5]), ([6], [7])]), ([8], [9], [])]).2.2[1]? =
      some (convert [([6], [7]), ([], [])]) := by
  have h := cwss_rank_structure
    [([2], [3], [([4], [5]), ([6], [7])]), ([8], [9], [])] (by decide)
  refine ⟨h.2.2.1.trans (by decide), ?_⟩
  exact (h.2.2.2.2.1 1 (by decide)).trans (by decide)

/-! ### C9 -/

/-- C9: in `convert_with_similar_sentences`, a batch member with fewer
than `r + 1` retrieved examples gets, in the rank-`r` source and target
blocks, a row that is the converted empty placeholder: EOS at position 0
followed by PAD — not an all-PAD row. -/
theorem rank_rows_of_missing_retrievals
    (mb : List (List Int × List Int × List (List Int × List Int))) (h : mb ≠ [])
    (r i : Nat) (e : List Int × List Int × List (List Int × List Int))
    (hr : r < maxRetrieved mb) (he : mb[i]? = some e) (hlen : e.2.2.length ≤ r) :
    ((convert_with_similar_sentences mb).2.2[r]?).map (fun b => b.1[i]?) =
      some (some (EOS :: List.replicate (srcMaxLen (rankColumn mb r)) PAD)) ∧
    ((convert_with_similar_sentences mb).2.2[r]?).map (fun b => b.2[i]?) =
      some (some (EOS :: List.replicate (tgtMaxLen (rankColumn mb r)) PAD)) ∧
    (∀ n : Nat, EOS :: List.replicate n PAD ≠ List.replicate (n + 1) PAD) := by
  have hcol : (rankColumn mb r)[i]? = some (([], []) : List Int × List Int) := by
    simp [rankColumn, List.getElem?_map, he, List.getElem?_eq_none hlen]
  have hne : rankColumn mb r ≠ [] := by
    intro hnil
    rw [hnil] at hcol
    simp at hcol
  have h1 := convert_fst_getElem? (rankColumn mb r) hne i [] [] hcol
  have h2 := convert_snd_getElem? (rankColumn mb r) hne i [] [] hcol
  rw [cwss_sims_getElem? mb r hr]
  refine ⟨?_, ?_, ?_⟩
  · rw [Option.map_some', h1]
    simp
  · rw [Option.map_some', h2]
    simp
  · intro n heq
    rw [List.replicate_succ] at heq
    simp [EOS, PAD] at heq

/-- Witness for C9: in the size-2/size-0 batch, rank 1's source block
row for the retrieval-less member is EOS followed by PAD. -/
theorem rank_rows_of_missing_retrievals_w :
    ((convert_with_similar_sentences
        [([2], [3], [([4], [5]), ([6], [7])]), ([8], [9], [])]).2.2[1]?).map
      (fun b => b.1[1]?) = some (some [EOS, PAD]) := by
  have h := rank_rows_of_missing_retrievals
    [([2], [3], [([4], [5]), ([6], [7])]), ([8], [9], [])] (by decide) 1 1
    ([8], [9], []) (by decide) (by decide) (by decide)
  exact h.1.trans (by decide)

/-! ### Helper lemmas about mapOption and pyGet -/

theorem mapOption_cons {α β : Type} (f : α → Option β) (a : α) (t : List α) :
    mapOption f (a :: t) =
      match f a, mapOption f t with
      | some b, some bs => some (b :: bs)
      | _, _ => none := rfl

theorem mapOption_eq_none_of_mem {α β : Type} (f : α → Option β) {l : List α} {a : α}
    (ha : a ∈ l) (hfa : f a = none) : mapOption f l = none := by
  induction l with
  | nil => cases ha
  | cons x t ih =>
    rw [mapOption_cons]
    rcases List.mem_cons.mp ha with rfl | hm
    · rw [hfa]
    · rw [ih hm]
      cases f x <;> rfl

theorem mapOption_getElem? {α β : Type} (f : α → Option β) :
    ∀ (l : List α) (r : List β), mapOption f l = some r →
      ∀ (i : Nat) (a : α), l[i]? = some a → r[i]? = f a := by
  intro l
  induction l with
  | nil =>
    intro r _ i a ha
    simp at ha
  | cons x t ih =>
    intro r h i a ha
    rw [mapOption_cons] at h
    split at h
    next b bs hfx hmt =>
      injection h with h'
      subst h'
      cases i with
      | zero =>
        simp at ha
        subst ha
        simpa using hfx.symm
      | succ n =>
        simp only [List.getElem?_cons_succ] at ha ⊢
        exact ih bs hmt n a ha
    next => exact absurd h (by simp)

theorem mapOption_length {α β : Type} (f : α → Option β) :
    ∀ (l : List α) (r : List β), mapOption f l = some r → r.length = l.length := by
  intro l
  induction l with
  | nil =>
    intro r h
    simp [mapOption] at h
    simp [← h]
  | cons x t ih =>
    intro r h
    rw [mapOption_cons] at h
    split at h
    next b bs hfx hmt =>
      injection h with h'
      subst h'
      simp [ih bs hmt]
    next => exact absurd h (by simp)

theorem mapOption_of_forall_some {α β : Type} (f : α → Option β) (g : α → β) :
    ∀ (l : List α), (∀ a ∈ l, f a = some (g a)) → mapOption f l = some (l.map g) := by
  intro l
  induction l with
  | nil => intro _; rfl
  | cons x t ih =>
    intro hl
    rw [mapOption_cons, hl x (List.mem_cons_self x t), ih (fun a ha => hl a (List.mem_cons_of_mem x ha))]
    rfl

theorem pyGet_eq_none {α : Type} (l : List α) (j : Int)
    (h : (l.length : Int) ≤ j ∨ j < -(l.length : Int)) : pyGet l j = none := by
  unfold pyGet
  rcases h with h | h
  · rw [if_neg (by omega)]
    exact List.getElem?_eq_none (by omega)
  · rw [if_pos (by omega), if_neg (by omega)]

theorem pyGet_in_range (l : List (List Int × List Int)) (j : Int)
    (h0 : 0 ≤ j) (hl : j < (l.length : Int)) :
    pyGet l j = some (l.getD j.toNat ([], [])) := by
  have hn : j.toNat < l.length := by omega
  unfold pyGet
  rw [if_neg (by omega), List.getElem?_eq_getElem hn, List.getD_eq_getElem _ _ hn]

theorem attachLine_resolves (data : List (List Int × List Int)) (line : String)
    (ints : List Int) (hp : parseInts line = some ints)
    (hin : ∀ j ∈ ints.drop 1, 0 ≤ j ∧ j < (data.length : Int)) :
    attachLine data line =
      some ((ints.drop 1).map (fun j => data.getD j.toNat ([], []))) := by
  unfold attachLine
  rw [hp, Option.some_bind]
  exact mapOption_of_forall_some _ _ _
    (fun j hj => pyGet_in_range data j (hin j hj).1 (hin j hj).2)

/-! ### C7 -/

/-- C7: for every index-file line, `load_train_data` parses the
whitespace-separated integers, drops exactly the first one, and attaches
as that example's retrieved set the pool examples at the remaining
indices, in the file's order, duplicates allowed. -/
theorem load_train_data_attaches
    (srcLines tgtLines simLines : List String)
    (source_vocab target_vocab : List (String × Int))
    (data : List (List Int × List Int))
    (full : List (List Int × List Int × List (List Int × List Int)))
    (hd : load_data srcLines tgtLines source_vocab target_vocab = some data)
    (hfull : load_train_data srcLines tgtLines source_vocab target_vocab simLines =
      some full)
    (i : Nat) (line : String) (ints : List Int)
    (hline : simLines[i]? = some line)
    (hp : parseInts line = some ints)
    (hin : ∀ j ∈ ints.drop 1, 0 ≤ j ∧ j < (data.length : Int)) :
    (full[i]?).map (fun e => e.2.2) =
      some ((ints.drop 1).map (fun j => data.getD j.toNat ([], []))) ∧
    (full[i]?).map (fun e => (e.1, e.2.1)) = data[i]? := by
  unfold load_train_data at hfull
  rw [hd, Option.some_bind] at hfull
  split at hfull
  next hc =>
    rcases Option.map_eq_some'.mp hfull with ⟨sims, hsims, hfe⟩
    subst hfe
    have hi : i < simLines.length := by
      by_contra hni
      rw [List.getElem?_eq_none (by omega)] at hline
      cases hline
    have hdi : i < data.length := by omega
    have hsi : sims[i]? = attachLine data line :=
      mapOption_getElem? _ simLines sims hsims i line hline
    rw [attachLine_resolves data line ints hp hin] at hsi
    have hz : (data.zip sims)[i]? =
        some (data[i], (ints.drop 1).map (fun j => data.getD j.toNat ([], []))) :=
      List.getElem?_zip_eq_some.mpr ⟨List.getElem?_eq_getElem hdi, hsi⟩
    constructor
    · simp [List.getElem?_map, hz]
    · simp [List.getElem?_map, hz, List.getElem?_eq_getElem hdi]
  next => exact absurd hfull (by simp)

/-- Witness for C7: the scenario of index line `"5 1 9 9"` over a
ten-line corpus — the retrieved set of example 5 is the pool entries at
1, 9, 9 in that order. -/
theorem load_train_data_attaches_w :
    Option.map (fun e => e.2.2)
      (([([0], [], []), ([2], [], []), ([0], [], []), ([0], [], []), ([0], [], []),
         ([0], [], [([2], []), ([3], []), ([3], [])]), ([0], [], []), ([0], [], []),
         ([0], [], []), ([3], [], [])] :
        List (List Int × List Int × List (List Int × List Int)))[5]?) =
      some [([2], []), ([3], []), ([3], [])] := by
  have h := load_train_data_attaches
    ["a", "b", "c", "d", "e", "f", "g", "h", "i", "j"]
    ["", "", "", "", "", "", "", "", "", ""]
    ["0", "1", "2", "3", "4", "5 1 9 9", "6", "7", "8", "9"]
    [("b", 2), ("j", 3)] []
    [([0], []), ([2], []), ([0], []), ([0], []), ([0], []),
     ([0], []), ([0], []), ([0], []), ([0], []), ([3], [])]
    [([0], [], []), ([2], [], []), ([0], [], []), ([0], [], []), ([0], [], []),
     ([0], [], [([2], []), ([3], []), ([3], [])]), ([0], [], []), ([0], [], []),
     ([0], [], []), ([3], [], [])]
    (by decide) (by decide) 5 "5 1 9 9" [5, 1, 9, 9] (by decide) (by decide)
    (by decide)
  exact h.1.trans (by decide)

/-! ### C4 -/

/-- C4 counterexample: the index `-1` is not a valid position of the
one-example pool `[0, 1)`, yet `load_train_data` does not fail — Python
negative indexing resolves it to the last pool entry. -/
theorem load_train_data_negative_index_cex :
    load_train_data ["a"] ["b"] [] [] ["0 -1"] = some [([0], [0], [([0], [0])])] ∧
    ¬ (0 ≤ (-1 : Int) ∧ (-1 : Int) < (1 : Int)) := by
  constructor
  · decide
  · decide

/-- C4 amended: the load fails fatally when a referenced index `j` is
out of range in Python's sense, `j ≥ pool size` or `j < -pool size`
(negative indices in `[-size, 0)` resolve from the end and do not fail). -/
theorem load_train_data_out_of_range
    (srcLines tgtLines simLines : List String)
    (source_vocab target_vocab : List (String × Int))
    (data : List (List Int × List Int)) (line : String) (ints : List Int) (j : Int)
    (hd : load_data srcLines tgtLines source_vocab target_vocab = some data)
    (hline : line ∈ simLines)
    (hp : parseInts line = some ints)
    (hj : j ∈ ints.drop 1)
    (hoob : (data.length : Int) ≤ j ∨ j < -(data.length : Int)) :
    load_train_data srcLines tgtLines source_vocab target_vocab simLines = none := by
  have hattach : attachLine data line = none := by
    unfold attachLine
    rw [hp, Option.some_bind]
    exact mapOption_eq_none_of_mem _ hj (pyGet_eq_none data j hoob)
  unfold load_train_data
  rw [hd, Option.some_bind]
  split
  · rw [mapOption_eq_none_of_mem _ hline hattach]
    rfl
  · rfl

/-- Witness for the amended C4: index 5 on a one-example pool aborts. -/
theorem load_train_data_out_of_range_w :
    load_train_data ["a"] ["b"] [] [] ["0 5"] = none :=
  load_train_data_out_of_range ["a"] ["b"] ["0 5"] [] [] [([0], [0])] "0 5"
    [0, 5] 5 (by decide) (by decide) (by decide) (by decide) (by decide)

/-! ### C10 -/

/-- C10: `train` passes `similar_sentence_indices` to `load_train_data`
unconditionally, so with `None` the run fails during data loading before
any training step, and every run that reaches the updater selected the
augmented converter — the plain-converter branch is dead. -/
theorem train_plain_converter_dead :
    (∀ (srcLines tgtLines : List String) (sv tv : List (String × Int)),
      trainSetup srcLines tgtLines sv tv none = none) ∧
    (∀ (srcLines tgtLines : List String) (sv tv : List (String × Int))
      (simLines : Option (List String)) (k : ConverterKind),
      trainSetup srcLines tgtLines sv tv simLines = some k →
      k = ConverterKind.withSimilar) := by
  constructor
  · intro srcLines tgtLines sv tv
    rfl
  · intro srcLines tgtLines sv tv simLines k h
    cases simLines with
    | none => exact absurd h (by simp [trainSetup, load_train_data_opt])
    | some ls =>
      unfold trainSetup at h
      rcases Option.map_eq_some'.mp h with ⟨_, _, hk⟩
      exact hk.symm

/-- Witness for C10: a configuration whose loading succeeds selects the
augmented converter. -/
theorem train_plain_converter_dead_w :
    trainSetup ["a"] ["b"] [] [] none = none ∧
    ConverterKind.withSimilar = ConverterKind.withSimilar :=
  ⟨train_plain_converter_dead.1 ["a"] ["b"] [] [],
   train_plain_converter_dead.2 ["a"] ["b"] [] [] (some ["0"])
     ConverterKind.withSimilar (by decide)⟩

/-! ### C8 -/

/-- C8 counterexample: the hypothesis `[5, 7]` does not end in EOS, yet
the scorer still drops its final token instead of keeping it unmodified. -/
theorem calculateBleu_truncates_non_eos_cex :
    calculateBleuHypotheses [[5, 7]] = [[5]] ∧
    [[(5 : Int)]] ≠ [[(5 : Int), 7]] ∧ (7 : Int) ≠ EOS := by
  refine ⟨by decide, by decide, by decide⟩

/-- C8 amended: the scorer drops exactly the final token of every
hypothesis: a hypothesis ending in EOS loses that EOS and nothing else,
but a hypothesis not ending in EOS also loses its final token. -/
theorem calculateBleu_drops_last_token :
    (∀ s : List Int, calculateBleuHypotheses [s ++ [EOS]] = [s]) ∧
    (∀ results : List (List Int),
      calculateBleuHypotheses results = results.map (fun s => s.dropLast)) := by
  constructor
  · intro s
    simp [calculateBleuHypotheses]
  · intro results
    rfl

/-! ### C5 -/

/-- C5: an out-of-vocabulary token is not an error — it maps to the UNK
id; with source vocabulary the↦2, cat↦3 the line "the cat sat" loads as
[2, 3, 0], and plain conversion of that single example appends EOS,
giving the source row [2, 3, 0, 1]. -/
theorem oov_token_maps_to_unk :
    (∀ (vocab : List (String × Int)) (w : String),
      vlookup vocab w = none → vocabGet vocab w = UNK) ∧
    load_data ["the cat sat"] [""] [("the", 2), ("cat", 3)] [] =
      some [([2, 3, 0], [])] ∧
    (convert [([2, 3, 0], [])]).1 = [[2, 3, 0, 1]] := by
  refine ⟨?_, by decide, by decide⟩
  intro vocab w h
  simp [vocabGet, h]

/-- Witness for C5: "sat" is absent from the vocabulary and maps to UNK. -/
theorem oov_token_maps_to_unk_w :
    vocabGet [("the", 2), ("cat", 3)] "sat" = UNK :=
  oov_token_maps_to_unk.1 [("the", 2), ("cat", 3)] "sat" (by decide)

/-! ### Helper lemmas about the vocabulary loader -/

theorem enumFrom_length (l : List String) : ∀ (i : Nat), (enumFrom i l).length = l.length := by
  induction l with
  | nil => intro i; rfl
  | cons w t ih =>
    intro i
    simp [enumFrom, ih]

theorem enumFrom_map_fst (l : List String) : ∀ (i : Nat), (enumFrom i l).map Prod.fst = l := by
  induction l with
  | nil => intro i; rfl
  | cons w t ih =>
    intro i
    simp [enumFrom, ih]

theorem enumFrom_map_snd (l : List String) :
    ∀ (i : Nat), (enumFrom i l).map Prod.snd =
      (List.range' i l.length).map (fun k => (k : Int)) := by
  induction l with
  | nil => intro i; rfl
  | cons w t ih =>
    intro i
    simp [enumFrom, List.range'_succ, ih]

theorem enumFrom_filter_ge (l : List String) :
    ∀ (i n : Nat), n ≤ i →
      (enumFrom i l).filter (fun p => decide (p.2 < (n : Int))) = [] := by
  induction l with
  | nil => intro i n _; rfl
  | cons w t ih =>
    intro i n h
    rw [enumFrom, List.filter_cons]
    rw [if_neg (by simp; omega)]
    exact ih (i + 1) n (by omega)

theorem enumFrom_filter_lt (l : List String) :
    ∀ (i n : Nat), i ≤ n →
      (enumFrom i l).filter (fun p => decide (p.2 < (n : Int))) =
        enumFrom i (l.take (n - i)) := by
  induction l with
  | nil => intro i n _; simp [enumFrom]
  | cons w t ih =>
    intro i n h
    rcases Nat.lt_or_ge i n with hlt | hge
    · rw [enumFrom, List.filter_cons, if_pos (by simp; omega)]
      have hn : n - i = (n - (i + 1)) + 1 := by omega
      rw [hn, List.take_succ_cons, enumFrom, ih (i + 1) n (by omega)]
    · have hin : i = n := by omega
      rw [enumFrom, List.filter_cons, if_neg (by simp; omega)]
      rw [enumFrom_filter_ge t (i + 1) n (by omega), hin, Nat.sub_self]
      rfl

theorem lookupLast_eq_none (w : String) :
    ∀ (l : List (String × Int)), (∀ q ∈ l, q.1 ≠ w) → lookupLast l w = none := by
  intro l
  induction l with
  | nil => intro _; rfl
  | cons p t ih =>
    intro hl
    rw [lookupLast, ih (fun q hq => hl q (List.mem_cons_of_mem p hq))]
    rw [if_neg]
    simpa using hl p (List.mem_cons_self p t)

theorem lookupLast_enumFrom (w : String) (l : List String) (hw : w ∉ l) (i : Nat) :
    lookupLast (enumFrom i l) w = none := by
  apply lookupLast_eq_none
  intro q hq he
  have hmem : q.1 ∈ (enumFrom i l).map Prod.fst := List.mem_map_of_mem Prod.fst hq
  rw [enumFrom_map_fst, he] at hmem
  exact hw hmem

theorem pyDictAux_of_nodup :
    ∀ (l : List (String × Int)) (seen : List String),
      (l.map Prod.fst).Nodup → (∀ p ∈ l, p.1 ∉ seen) →
      pyDictAux seen l = l := by
  intro l
  induction l with
  | nil => intro seen _ _; rfl
  | cons p t ih =>
    intro seen hnd hseen
    rw [List.map_cons, List.nodup_cons] at hnd
    have hc : seen.contains p.1 = false := by
      simp only [List.contains, List.elem_eq_mem, decide_eq_false_iff_not]
      exact hseen p (List.mem_cons_self p t)
    rw [pyDictAux, hc]
    simp only [Bool.false_eq_true, if_false]
    have hll : lookupLast t p.1 = none := by
      apply lookupLast_eq_none
      intro q hq he
      apply hnd.1
      rw [← he]
      exact List.mem_map_of_mem Prod.fst hq
    rw [hll, Option.getD_none]
    rw [ih (p.1 :: seen) hnd.2]
    intro q hq
    rw [List.mem_cons]
    push_neg
    constructor
    · intro he
      apply hnd.1
      rw [← he]
      exact List.mem_map_of_mem Prod.fst hq
    · exact hseen q (List.mem_cons_of_mem p hq)

/-! ### C3 -/

/-- C3 counterexample: a vocabulary file with a duplicated word —
`load_vocab` succeeds at requested size 4 yet returns a mapping of size
3 whose ids are 0, 1, 3, not the dense range. -/
theorem load_vocab_dup_words_cex :
    load_vocab ["a", "a"] 4 = some [(unkWord, 0), (eosWord, 1), ("a", 3)] ∧
    [(unkWord, (0 : Int)), (eosWord, 1), ("a", 3)].length ≠ 4 ∧
    [(unkWord, (0 : Int)), (eosWord, 1), ("a", 3)].map Prod.snd ≠
      (List.range 4).map (fun k => (k : Int)) := by
  refine ⟨by decide, by decide, by decide⟩

/-- C3 amended: for a vocabulary file whose words are pairwise distinct
and distinct from the reserved tokens, a successful `load_vocab` of size
`N` returns a mapping of size `N` whose ids are exactly `0, …, N - 1` in
order, with id 0 at `<UNK>` and id 1 at `<EOS>`. -/
theorem load_vocab_dense (fileLines : List String) (N : Nat) (v : List (String × Int))
    (hnd : (unkWord :: eosWord :: fileLines).Nodup)
    (hv : load_vocab fileLines N = some v) :
    v.length = N ∧
    v.map Prod.snd = (List.range N).map (fun k => (k : Int)) ∧
    vlookup v unkWord = some 0 ∧ vlookup v eosWord = some 1 := by
  unfold load_vocab at hv
  split at hv
  next hsz =>
    have hfilter := enumFrom_filter_lt (unkWord :: eosWord :: fileLines) 0 N (Nat.zero_le N)
    rw [Nat.sub_zero] at hfilter
    have hkeys :
        ((enumFrom 0 ((unkWord :: eosWord :: fileLines).take N)).map Prod.fst).Nodup := by
      rw [enumFrom_map_fst]
      exact hnd.sublist (List.take_sublist N (unkWord :: eosWord :: fileLines))
    have hdict : vocabOf fileLines N =
        enumFrom 0 ((unkWord :: eosWord :: fileLines).take N) := by
      unfold vocabOf
      rw [hfilter]
      exact pyDictAux_of_nodup _ [] hkeys (by simp)
    rw [hdict] at hv
    simp only [List.length_cons] at hsz
    have hlen : (enumFrom 0 ((unkWord :: eosWord :: fileLines).take N)).length = N := by
      rw [enumFrom_length, List.length_take]
      simp only [List.length_cons]
      omega
    rcases hu : vlookup (enumFrom 0 ((unkWord :: eosWord :: fileLines).take N)) unkWord
        with _ | u' <;> rw [hu] at hv
    · exact absurd hv (by simp)
    rcases he : vlookup (enumFrom 0 ((unkWord :: eosWord :: fileLines).take N)) eosWord
        with _ | e' <;> rw [he] at hv
    · exact absurd hv (by simp)
    split at hv
    next u e hequ heqe =>
      injection hequ with hequ
      injection heqe with heqe
      subst hequ
      subst heqe
      split at hv
      next hcond =>
        injection hv with hv
        subst hv
        refine ⟨hlen, ?_, ?_, ?_⟩
        · have htk : (List.take N (unkWord :: eosWord :: fileLines)).length = N := by
            rw [List.length_take]
            simp only [List.length_cons]
            omega
          rw [enumFrom_map_snd, List.range_eq_range', htk]
        · rw [hu, hcond.1]
          rfl
        · rw [he, hcond.2]
          rfl
      next => exact absurd hv (by simp)
    next hne => exact (hne u' e' rfl rfl).elim
  next => exact absurd hv (by simp)

/-- Witness for C3 at the two-word file `["a", "b"]` and size 4. -/
theorem load_vocab_dense_w :
    [(unkWord, (0 : Int)), (eosWord, 1), ("a", 2), ("b", 3)].map Prod.snd =
      (List.range 4).map (fun k => (k : Int)) :=
  (load_vocab_dense ["a", "b"] 4 [(unkWord, 0), (eosWord, 1), ("a", 2), ("b", 3)]
    (by decide) (by decide)).2.1

/-! ### C6 -/

theorem lookupLast_cons_of_ne (p : String × Int) (t : List (String × Int)) (w : String)
    (ht : lookupLast t w = none) (hne : (p.1 == w) = false) :
    lookupLast (p :: t) w = none := by
  simp only [lookupLast, ht, hne]
  simp

theorem pyDictAux_cons_not_seen (seen : List String) (p : String × Int)
    (t : List (String × Int)) (h : seen.contains p.1 = false) :
    pyDictAux seen (p :: t) =
      (p.1, (lookupLast t p.1).getD p.2) :: pyDictAux (p.1 :: seen) t := by
  rw [pyDictAux, h]
  simp

theorem vlookup_cons_self (w : String) (v : Int) (t : List (String × Int)) :
    vlookup ((w, v) :: t) w = some v := by
  simp [vlookup]

theorem vlookup_cons_ne (p : String × Int) (t : List (String × Int)) (w : String)
    (h : (p.1 == w) = false) : vlookup (p :: t) w = vlookup t w := by
  simp only [vlookup]
  rw [List.find?_cons_of_neg]
  simp [h]

/-- C6 counterexample: with the one-word file `["a"]`, the requested
size 0 does not exceed the file's word count yet loading fails, and the
requested size 3 exceeds the file's word count yet loading succeeds. -/
theorem load_vocab_size_cex :
    (load_vocab ["a"] 0 = none ∧ 0 ≤ ["a"].length) ∧
    ((load_vocab ["a"] 3).isSome ∧ ["a"].length < 3) := by
  refine ⟨⟨by decide, by decide⟩, by decide, by decide⟩

/-- C6 amended: for a file containing neither reserved token,
`load_vocab` fails exactly when the requested size exceeds the file's
word count plus two (the prepended reserved tokens) or is below two
(so that a reserved token falls outside the mapping). -/
theorem load_vocab_fails_iff (fileLines : List String) (size : Nat)
    (hU : unkWord ∉ fileLines) (hE : eosWord ∉ fileLines) :
    load_vocab fileLines size = none ↔
      (fileLines.length + 2 < size ∨ size < 2) := by
  unfold load_vocab
  by_cases hsz : size ≤ (unkWord :: eosWord :: fileLines).length
  · rw [if_pos hsz]
    simp only [List.length_cons] at hsz
    cases size with
    | zero =>
      have hv0 : vocabOf fileLines 0 = [] := by
        unfold vocabOf
        rw [enumFrom_filter_ge _ 0 0 (Nat.le_refl 0)]
        rfl
      rw [hv0]
      exact iff_of_true rfl (Or.inr (by omega))
    | succ n1 =>
      cases n1 with
      | zero =>
        have hv1 : vocabOf fileLines 1 = [(unkWord, 0)] := by
          unfold vocabOf
          rw [enumFrom_filter_lt _ 0 1 (by omega)]
          rfl
        rw [hv1]
        exact iff_of_true rfl (Or.inr (by omega))
      | succ n =>
        have hfilter :=
          enumFrom_filter_lt (unkWord :: eosWord :: fileLines) 0 (n + 2) (by omega)
        rw [Nat.sub_zero] at hfilter
        have hlu : lookupLast ((eosWord, 1) :: enumFrom 2 (fileLines.take n)) unkWord
            = none := by
          apply lookupLast_cons_of_ne
          · exact lookupLast_enumFrom unkWord _
              (fun hm => hU (List.mem_of_mem_take hm)) 2
          · decide
        have hle : lookupLast (enumFrom 2 (fileLines.take n)) eosWord = none :=
          lookupLast_enumFrom eosWord _ (fun hm => hE (List.mem_of_mem_take hm)) 2
        have hvshape : vocabOf fileLines (n + 2) =
            (unkWord, 0) :: (eosWord, 1) ::
              pyDictAux [eosWord, unkWord] (enumFrom 2 (fileLines.take n)) := by
          unfold vocabOf pyDict
          rw [hfilter]
          rw [show (unkWord :: eosWord :: fileLines).take (n + 2) =
            unkWord :: eosWord :: fileLines.take n from rfl]
          rw [show enumFrom 0 (unkWord :: eosWord :: fileLines.take n) =
            (unkWord, 0) :: (eosWord, 1) :: enumFrom 2 (fileLines.take n) from rfl]
          rw [pyDictAux_cons_not_seen [] (unkWord, 0)
            ((eosWord, 1) :: enumFrom 2 (fileLines.take n)) (by decide)]
          rw [hlu, Option.getD_none]
          rw [pyDictAux_cons_not_seen [unkWord] (eosWord, 1)
            (enumFrom 2 (fileLines.take n)) (by decide)]
          rw [hle, Option.getD_none]
        have hvu : vlookup (vocabOf fileLines (n + 2)) unkWord = some 0 := by
          rw [hvshape, vlookup_cons_self]
        have hve : vlookup (vocabOf fileLines (n + 2)) eosWord = some 1 := by
          rw [hvshape, vlookup_cons_ne _ _ _ (by decide), vlookup_cons_self]
        rw [hvu, hve]
        constructor
        · intro hnone
          exact absurd hnone (by simp [UNK, EOS])
        · intro hrhs
          exfalso
          rcases hrhs with hr | hr <;> omega
  · rw [if_neg hsz]
    simp only [List.length_cons] at hsz
    exact iff_of_true rfl (Or.inl (by omega))

/-- Witness for the amended C6 on the one-word file: size 5 exceeds
1 + 2 and fails; size 3 does not and succeeds. -/
theorem load_vocab_fails_iff_w :
    load_vocab ["a"] 5 = none ∧ ¬ load_vocab ["a"] 3 = none :=
  ⟨(load_vocab_fails_iff ["a"] 5 (by decide) (by decide)).mpr (by decide),
   fun h => absurd ((load_vocab_fails_iff ["a"] 3 (by decide) (by decide)).mp h)
     (by decide)⟩

end Segnmt
